import Mathlib

/-!
Shallow embedding of the sealed-bid auction factory contract
(`src/src/lib.rs`, Stylus/Rust).  Addresses and U256 values are modelled
as `Nat`; U256 arithmetic wraps modulo `2 ^ 256` where the source can
overflow.  Error payloads (`Vec<u8>`) are `List Nat` of byte values.
The host's deploy primitive (`RawDeploy`) and the keccak hash are
external collaborators, modelled as explicit function parameters; the
host's all-or-nothing call semantics are modelled by the `step`
function, which keeps the pre-call state whenever an operation errors.
-/

/-- Byte encoding of an ASCII string literal, as the source's
`"...".as_bytes().to_vec()`. -/
def strBytes (s : String) : List Nat :=
  s.data.map Char.toNat

/-- The U256 modulus. -/
def U256MOD : Nat := 2 ^ 256

/-- Persistent storage of `SealedBidAuctionFactory` (`sol_storage!` block):
counter, two id-to-address mappings, owner, pause flag.  Mappings are
association lists with Solidity-storage semantics: absent keys read as 0. -/
structure State where
  auction_count : Nat
  auctions : List (Nat × Nat)
  creators : List (Nat × Nat)
  owner : Nat
  paused : Bool
  deriving DecidableEq

/-- Storage-mapping read: first binding for the key, default 0 (the
sentinel zero address) when the key was never written. -/
def mapGet (m : List (Nat × Nat)) (k : Nat) : Nat :=
  match m.find? (fun p => p.1 == k) with
  | some p => p.2
  | none => 0

/-- Storage-mapping write: prepend the binding (shadows older ones). -/
def mapSet (m : List (Nat × Nat)) (k v : Nat) : List (Nat × Nat) :=
  (k, v) :: m

/-- Genesis storage: everything zero-valued, as at contract creation. -/
def genesis : State :=
  { auction_count := 0, auctions := [], creators := [], owner := 0, paused := false }

/-- Arguments of `create_auction` (lib.rs lines 84-92). -/
structure Params where
  nft_contract : Nat
  token_id : Nat
  reserve_price : Nat
  commit_duration : Nat
  reveal_duration : Nat
  min_deposit : Nat
  deriving DecidableEq

/-- `SealedBidAuctionFactory::new` (lib.rs lines 50-58). -/
def new (sender : Nat) (s : State) : Except (List Nat) State :=
  if s.owner ≠ 0 then
    .error (strBytes "Already initialized")
  else
    .ok { s with auction_count := 0, owner := sender, paused := false }

/-- `only_owner` (lib.rs lines 179-184). -/
def only_owner (sender : Nat) (s : State) : Except (List Nat) Unit :=
  if sender ≠ s.owner then
    .error (strBytes "Only owner")
  else
    .ok ()

/-- `pause` (lib.rs lines 61-65); the match models the `?` operator on
`only_owner`. -/
def pause (sender : Nat) (s : State) : Except (List Nat) State :=
  match only_owner sender s with
  | .ok _ => .ok { s with paused := true }
  | .error e => .error e

/-- `unpause` (lib.rs lines 68-72). -/
def unpause (sender : Nat) (s : State) : Except (List Nat) State :=
  match only_owner sender s with
  | .ok _ => .ok { s with paused := false }
  | .error e => .error e

/-- `U256::as_le_bytes`: the 32-byte little-endian encoding. -/
def le_bytes32 (n : Nat) : List Nat :=
  (List.range 32).map (fun i => n / 256 ^ i % 256)

/-- `Address::as_slice`: the 20 raw bytes of an address (big-endian). -/
def addr_bytes20 (a : Nat) : List Nat :=
  (List.range 20).map (fun i => a / 256 ^ (19 - i) % 256)

/-- The candidate id of the next deployment: `auction_count + 1` with
U256 wrap-around (lib.rs line 110). -/
def nextId (s : State) : Nat :=
  (s.auction_count + 1) % U256MOD

/-- The salt preimage built in lib.rs lines 115-123: concatenation, in
this fixed order, of next id, creator, nft contract, token id, reserve
price, commit duration, reveal duration, min deposit. -/
def saltPreimage (next_id creator : Nat) (p : Params) : List Nat :=
  le_bytes32 next_id ++ addr_bytes20 creator ++ addr_bytes20 p.nft_contract ++
    le_bytes32 p.token_id ++ le_bytes32 p.reserve_price ++
    le_bytes32 p.commit_duration ++ le_bytes32 p.reveal_duration ++
    le_bytes32 p.min_deposit

/-- The deterministic salt: first 32 bytes of the keccak hash of the
preimage (lib.rs line 125).  `keccak` is the trusted black-box hash. -/
def salt (keccak : List Nat → List Nat) (next_id creator : Nat) (p : Params) : List Nat :=
  (keccak (saltPreimage next_id creator p)).take 32

/-- `create_auction` (lib.rs lines 84-145).  `keccak` is the hash
primitive; `deploy` is the host's CREATE2 primitive, taking the salt and
returning the deployed address or a diagnostic payload.  On success the
new state and the deployed address are returned. -/
def create_auction (keccak : List Nat → List Nat)
    (deploy : List Nat → Except (List Nat) Nat)
    (sender : Nat) (p : Params) (s : State) :
    Except (List Nat) (State × Nat) :=
  if s.paused then
    .error (strBytes "Factory is paused")
  else if p.nft_contract = 0 then
    .error (strBytes "Invalid NFT contract")
  else if p.reveal_duration = 0 then
    .error (strBytes "Reveal duration must be > 0")
  else if p.commit_duration = 0 then
    .error (strBytes "Commit duration must be > 0")
  else if p.min_deposit = 0 then
    .error (strBytes "Min deposit must be > 0")
  else
    match deploy (salt keccak (nextId s) sender p) with
    | .error e => .error (strBytes "Deployment failed: " ++ e)
    | .ok deployed =>
        .ok ({ s with
                auctions := mapSet s.auctions (nextId s) deployed,
                creators := mapSet s.creators (nextId s) sender,
                auction_count := nextId s }, deployed)

/-- `get_auction` (lib.rs lines 148-150). -/
def get_auction (s : State) (id : Nat) : Nat :=
  mapGet s.auctions id

/-- `get_creator` (lib.rs lines 153-155). -/
def get_creator (s : State) (id : Nat) : Nat :=
  mapGet s.creators id

/-- `get_auction_count` (lib.rs lines 158-160). -/
def get_auction_count (s : State) : Nat :=
  s.auction_count

/-- `get_owner` (lib.rs lines 163-165). -/
def get_owner (s : State) : Nat :=
  s.owner

/-- `is_paused` (lib.rs lines 168-170). -/
def is_paused (s : State) : Bool :=
  s.paused

/-- One external call to the factory, with the caller and, for
`create`, the call's deploy-primitive oracle. -/
inductive Call where
  | init (sender : Nat)
  | pauseC (sender : Nat)
  | unpauseC (sender : Nat)
  | create (sender : Nat) (p : Params) (deploy : List Nat → Except (List Nat) Nat)

/-- Host semantics of one call: commit the new state on success, roll
back (keep the pre-call state) on error. -/
def step (keccak : List Nat → List Nat) (s : State) (c : Call) : State :=
  match c with
  | .init sender =>
      match new sender s with
      | .ok s' => s'
      | .error _ => s
  | .pauseC sender =>
      match pause sender s with
      | .ok s' => s'
      | .error _ => s
  | .unpauseC sender =>
      match unpause sender s with
      | .ok s' => s'
      | .error _ => s
  | .create sender p deploy =>
      match create_auction keccak deploy sender p s with
      | .ok (s', _) => s'
      | .error _ => s

/-- Run a list of calls from a given state. -/
def runFrom (keccak : List Nat → List Nat) (s : State) (cs : List Call) : State :=
  cs.foldl (step keccak) s

/-- Run a list of calls from genesis. -/
def run (keccak : List Nat → List Nat) (cs : List Call) : State :=
  runFrom keccak genesis cs

/-- The spec's reading of the salt preimage: the ordered list of the
eight serialized fields (candidate id, caller, nft contract, token id,
reserve price, commit duration, reveal duration, min deposit), to be
concatenated without delimiters. -/
def specPreimageFields (next_id creator : Nat) (p : Params) : List (List Nat) :=
  [le_bytes32 next_id, addr_bytes20 creator, addr_bytes20 p.nft_contract,
   le_bytes32 p.token_id, le_bytes32 p.reserve_price, le_bytes32 p.commit_duration,
   le_bytes32 p.reveal_duration, le_bytes32 p.min_deposit]

/-- The spec's count of successful deployments, reset by a successful
`new` (which succeeds exactly when the stored owner is zero): running
tally of `create_auction` calls that return `ok`, since the most recent
successful `new` call (or genesis). -/
def tallyFrom (kc : List Nat → List Nat) (s : State) (cs : List Call) (n : Nat) : Nat :=
  match cs with
  | [] => n
  | c :: cs =>
      let n' :=
        match c with
        | .init _ => if s.owner = 0 then 0 else n
        | .create sender p deploy =>
            match create_auction kc deploy sender p s with
            | .ok _ => n + 1
            | .error _ => n
        | _ => n
      tallyFrom kc (step kc s c) cs n'

/-- Successful deployments since the last successful `new`, over a whole
trace from genesis. -/
def specDeployTally (kc : List Nat → List Nat) (cs : List Call) : Nat :=
  tallyFrom kc genesis cs 0

/-- `noSuccInit kc s cs` holds when no call of `cs`, run from `s`, is a
`new` call that succeeds (i.e. every `init` call happens while the
stored owner is nonzero). -/
def noSuccInit (kc : List Nat → List Nat) (s : State) (cs : List Call) : Bool :=
  match cs with
  | [] => true
  | c :: cs =>
      (match c with
       | Call.init _ => s.owner != 0
       | _ => true) && noSuccInit kc (step kc s c) cs

/-- `initSafe kc s cs` holds when every `new` call of `cs`, run from
`s`, either fails (owner already nonzero) or happens while the counter
is still 0, so that no successful `new` ever lowers the counter below a
previously assigned id. -/
def initSafe (kc : List Nat → List Nat) (s : State) (cs : List Call) : Bool :=
  match cs with
  | [] => true
  | c :: cs =>
      (match c with
       | Call.init _ => (s.owner != 0) || (s.auction_count == 0)
       | _ => true) && initSafe kc (step kc s c) cs

deriving instance DecidableEq for Except

theorem mapGet_mapSet_self (m : List (Nat × Nat)) (k v : Nat) :
    mapGet (mapSet m k v) k = v := by
  simp [mapGet, mapSet]

theorem mapGet_mapSet_of_ne (m : List (Nat × Nat)) (k v j : Nat) (h : j ≠ k) :
    mapGet (mapSet m k v) j = mapGet m j := by
  simp [mapGet, mapSet, List.find?_cons, Ne.symm h]

theorem create_auction_ok_elim (kc : List Nat → List Nat)
    (deploy : List Nat → Except (List Nat) Nat) (sender : Nat) (p : Params)
    (s s' : State) (a : Nat)
    (h : create_auction kc deploy sender p s = .ok (s', a)) :
    s.paused = false ∧ p.nft_contract ≠ 0 ∧ p.reveal_duration ≠ 0 ∧
    p.commit_duration ≠ 0 ∧ p.min_deposit ≠ 0 ∧
    deploy (salt kc (nextId s) sender p) = .ok a ∧
    s' = { s with auctions := mapSet s.auctions (nextId s) a,
                  creators := mapSet s.creators (nextId s) sender,
                  auction_count := nextId s } := by
  unfold create_auction at h
  split_ifs at h with h1 h2 h3 h4 h5
  rcases hd : deploy (salt kc (nextId s) sender p) with e | d
  · rw [hd] at h; cases h
  · rw [hd] at h
    simp only [Except.ok.injEq, Prod.mk.injEq] at h
    obtain ⟨hs', hda⟩ := h
    subst hda
    exact ⟨by simpa using h1, h2, h3, h4, h5, rfl, hs'.symm⟩

theorem create_auction_ok_intro (kc : List Nat → List Nat)
    (deploy : List Nat → Except (List Nat) Nat) (sender : Nat) (p : Params)
    (s : State) (a : Nat)
    (hp : s.paused = false) (h1 : p.nft_contract ≠ 0) (h2 : p.reveal_duration ≠ 0)
    (h3 : p.commit_duration ≠ 0) (h4 : p.min_deposit ≠ 0)
    (hd : deploy (salt kc (nextId s) sender p) = .ok a) :
    create_auction kc deploy sender p s =
      .ok ({ s with auctions := mapSet s.auctions (nextId s) a,
                    creators := mapSet s.creators (nextId s) sender,
                    auction_count := nextId s }, a) := by
  simp [create_auction, hp, h1, h2, h3, h4, hd]

theorem step_create_of_error (kc : List Nat → List Nat)
    (deploy : List Nat → Except (List Nat) Nat) (sender : Nat) (p : Params)
    (s : State) (e : List Nat)
    (h : create_auction kc deploy sender p s = .error e) :
    step kc s (.create sender p deploy) = s := by
  simp [step, h]

theorem step_create_of_ok (kc : List Nat → List Nat)
    (deploy : List Nat → Except (List Nat) Nat) (sender : Nat) (p : Params)
    (s s' : State) (a : Nat)
    (h : create_auction kc deploy sender p s = .ok (s', a)) :
    step kc s (.create sender p deploy) = s' := by
  simp [step, h]

theorem step_init_of_owner_ne (kc : List Nat → List Nat) (s : State) (sender : Nat)
    (h : s.owner ≠ 0) : step kc s (.init sender) = s := by
  simp [step, new, h]

theorem step_init_of_owner_eq (kc : List Nat → List Nat) (s : State) (sender : Nat)
    (h : s.owner = 0) :
    step kc s (.init sender) =
      { s with auction_count := 0, owner := sender, paused := false } := by
  simp [step, new, h]

theorem step_pause_fields (kc : List Nat → List Nat) (s : State) (sender : Nat) :
    (step kc s (.pauseC sender)).auction_count = s.auction_count ∧
    (step kc s (.pauseC sender)).auctions = s.auctions ∧
    (step kc s (.pauseC sender)).creators = s.creators ∧
    (step kc s (.pauseC sender)).owner = s.owner := by
  by_cases h : sender = s.owner <;> simp [step, pause, only_owner, h]

theorem step_unpause_fields (kc : List Nat → List Nat) (s : State) (sender : Nat) :
    (step kc s (.unpauseC sender)).auction_count = s.auction_count ∧
    (step kc s (.unpauseC sender)).auctions = s.auctions ∧
    (step kc s (.unpauseC sender)).creators = s.creators ∧
    (step kc s (.unpauseC sender)).owner = s.owner := by
  by_cases h : sender = s.owner <;> simp [step, unpause, only_owner, h]

theorem step_count_le (kc : List Nat → List Nat) (s : State) (c : Call) :
    (step kc s c).auction_count ≤ s.auction_count + 1 := by
  cases c with
  | init sender =>
      by_cases h : s.owner = 0
      · rw [step_init_of_owner_eq kc s sender h]; simp
      · rw [step_init_of_owner_ne kc s sender h]; omega
  | pauseC sender => rw [(step_pause_fields kc s sender).1]; omega
  | unpauseC sender => rw [(step_unpause_fields kc s sender).1]; omega
  | create sender p deploy =>
      rcases hc : create_auction kc deploy sender p s with e | ⟨s', a⟩
      · rw [step_create_of_error kc deploy sender p s e hc]; omega
      · rw [step_create_of_ok kc deploy sender p s s' a hc]
        rw [(create_auction_ok_elim kc deploy sender p s s' a hc).2.2.2.2.2.2]
        exact Nat.le_trans (Nat.mod_le _ _) (Nat.le_refl _)

theorem runFrom_count_le (kc : List Nat → List Nat) (cs : List Call) :
    ∀ s : State, (runFrom kc s cs).auction_count ≤ s.auction_count + cs.length := by
  induction cs with
  | nil => intro s; simp [runFrom]
  | cons c cs ih =>
      intro s
      have h1 := ih (step kc s c)
      have h2 := step_count_le kc s c
      have h3 : runFrom kc s (c :: cs) = runFrom kc (step kc s c) cs := by
        simp [runFrom]
      rw [h3]
      simp only [List.length_cons]
      omega

theorem run_count_le (kc : List Nat → List Nat) (cs : List Call) :
    (run kc cs).auction_count ≤ cs.length := by
  have := runFrom_count_le kc cs genesis
  simpa [run, genesis] using this

theorem succ_mod_u256 (n : Nat) :
    (n % U256MOD + 1) % U256MOD = (n + 1) % U256MOD := by
  conv_rhs => rw [Nat.add_mod]
  have h1 : 1 % U256MOD = 1 := Nat.mod_eq_of_lt (by norm_num [U256MOD])
  rw [h1]

theorem runFrom_count_tally (kc : List Nat → List Nat) (cs : List Call) :
    ∀ (s : State) (n : Nat), s.auction_count = n % U256MOD →
      (runFrom kc s cs).auction_count = tallyFrom kc s cs n % U256MOD := by
  induction cs with
  | nil => intro s n h; simpa [runFrom, tallyFrom] using h
  | cons c cs ih =>
      intro s n h
      have hfold : runFrom kc s (c :: cs) = runFrom kc (step kc s c) cs := by
        simp [runFrom]
      rw [hfold]
      cases c with
      | init sender =>
          by_cases ho : s.owner = 0
          · have ht : tallyFrom kc s (Call.init sender :: cs) n =
                tallyFrom kc (step kc s (.init sender)) cs 0 := by
              simp [tallyFrom, ho]
            rw [ht]
            apply ih
            rw [step_init_of_owner_eq kc s sender ho]
            simp
          · have ht : tallyFrom kc s (Call.init sender :: cs) n =
                tallyFrom kc (step kc s (.init sender)) cs n := by
              simp [tallyFrom, ho]
            rw [ht]
            apply ih
            rw [step_init_of_owner_ne kc s sender ho]
            exact h
      | pauseC sender =>
          have ht : tallyFrom kc s (Call.pauseC sender :: cs) n =
              tallyFrom kc (step kc s (.pauseC sender)) cs n := by
            simp [tallyFrom]
          rw [ht]
          apply ih
          rw [(step_pause_fields kc s sender).1]
          exact h
      | unpauseC sender =>
          have ht : tallyFrom kc s (Call.unpauseC sender :: cs) n =
              tallyFrom kc (step kc s (.unpauseC sender)) cs n := by
            simp [tallyFrom]
          rw [ht]
          apply ih
          rw [(step_unpause_fields kc s sender).1]
          exact h
      | create sender p deploy =>
          rcases hc : create_auction kc deploy sender p s with e | ⟨s', a⟩
          · have ht : tallyFrom kc s (Call.create sender p deploy :: cs) n =
                tallyFrom kc (step kc s (.create sender p deploy)) cs n := by
              simp [tallyFrom, hc]
            rw [ht]
            apply ih
            rw [step_create_of_error kc deploy sender p s e hc]
            exact h
          · have ht : tallyFrom kc s (Call.create sender p deploy :: cs) n =
                tallyFrom kc (step kc s (.create sender p deploy)) cs (n + 1) := by
              simp [tallyFrom, hc]
            rw [ht]
            apply ih
            rw [step_create_of_ok kc deploy sender p s s' a hc]
            rw [(create_auction_ok_elim kc deploy sender p s s' a hc).2.2.2.2.2.2]
            show nextId s = (n + 1) % U256MOD
            rw [nextId, h, succ_mod_u256]

theorem unassigned_zero_aux (kc : List Nat → List Nat) (cs : List Call) :
    ∀ s : State,
      (∀ j, j = 0 ∨ s.auction_count < j →
        mapGet s.auctions j = 0 ∧ mapGet s.creators j = 0) →
      initSafe kc s cs = true →
      s.auction_count + cs.length < U256MOD →
      ∀ j, j = 0 ∨ (runFrom kc s cs).auction_count < j →
        mapGet (runFrom kc s cs).auctions j = 0 ∧
        mapGet (runFrom kc s cs).creators j = 0 := by
  induction cs with
  | nil => intro s hinv _ _ j hj; simpa [runFrom] using hinv j (by simpa [runFrom] using hj)
  | cons c cs ih =>
      intro s hinv hsafe hb
      have hfold : runFrom kc s (c :: cs) = runFrom kc (step kc s c) cs := by
        simp [runFrom]
      rw [hfold]
      simp only [initSafe, Bool.and_eq_true] at hsafe
      obtain ⟨hhead, htail⟩ := hsafe
      have hlen : s.auction_count + cs.length + 1 < U256MOD := by
        simp only [List.length_cons] at hb; omega
      cases c with
      | init sender =>
          by_cases ho : s.owner = 0
          · have hc0 : s.auction_count = 0 := by
              simp [ho] at hhead; exact hhead
            rw [step_init_of_owner_eq kc s sender ho] at htail ⊢
            apply ih
            · intro j hj
              simp only []
              refine hinv j ?_
              rcases hj with hj | hj
              · exact Or.inl hj
              · simp only [] at hj
                right; omega
            · exact htail
            · simp only []
              omega
          · rw [step_init_of_owner_ne kc s sender ho] at htail ⊢
            exact ih s hinv htail (by omega)
      | pauseC sender =>
          have hf := step_pause_fields kc s sender
          apply ih
          · intro j hj
            rw [hf.2.1, hf.2.2.1]
            exact hinv j (by rw [hf.1] at hj; exact hj)
          · exact htail
          · rw [hf.1]; omega
      | unpauseC sender =>
          have hf := step_unpause_fields kc s sender
          apply ih
          · intro j hj
            rw [hf.2.1, hf.2.2.1]
            exact hinv j (by rw [hf.1] at hj; exact hj)
          · exact htail
          · rw [hf.1]; omega
      | create sender p deploy =>
          rcases hc : create_auction kc deploy sender p s with e | ⟨s', a⟩
          · rw [step_create_of_error kc deploy sender p s e hc] at htail ⊢
            exact ih s hinv htail (by omega)
          · rw [step_create_of_ok kc deploy sender p s s' a hc] at htail ⊢
            have hshape := (create_auction_ok_elim kc deploy sender p s s' a hc).2.2.2.2.2.2
            have hnid : nextId s = s.auction_count + 1 := by
              rw [nextId]
              exact Nat.mod_eq_of_lt (by omega)
            apply ih
            · intro j hj
              rw [hshape] at hj ⊢
              simp only [] at hj ⊢
              have hne : j ≠ nextId s := by
                rw [hnid]
                rcases hj with hj | hj
                · omega
                · omega
              rw [mapGet_mapSet_of_ne _ _ _ _ hne, mapGet_mapSet_of_ne _ _ _ _ hne]
              refine hinv j ?_
              rcases hj with hj | hj
              · exact Or.inl hj
              · right; omega
            · exact htail
            · rw [hshape]
              simp only []
              rw [hnid]
              omega

theorem persist_aux (kc : List Nat → List Nat) (ds : List Call) :
    ∀ (s : State) (i : Nat), 1 ≤ i → i ≤ s.auction_count →
      noSuccInit kc s ds = true →
      s.auction_count + ds.length < U256MOD →
      i ≤ (runFrom kc s ds).auction_count ∧
      get_auction (runFrom kc s ds) i = get_auction s i ∧
      get_creator (runFrom kc s ds) i = get_creator s i := by
  induction ds with
  | nil =>
      intro s i h1 h2 _ _
      exact ⟨by simpa [runFrom] using h2, by simp [runFrom], by simp [runFrom]⟩
  | cons c ds ih =>
      intro s i h1 h2 hns hb
      have hfold : runFrom kc s (c :: ds) = runFrom kc (step kc s c) ds := by
        simp [runFrom]
      rw [hfold]
      simp only [noSuccInit, Bool.and_eq_true] at hns
      obtain ⟨hhead, htail⟩ := hns
      have hlen : s.auction_count + ds.length + 1 < U256MOD := by
        simp only [List.length_cons] at hb; omega
      cases c with
      | init sender =>
          have ho : s.owner ≠ 0 := by simpa using hhead
          rw [step_init_of_owner_ne kc s sender ho] at htail ⊢
          exact ih s i h1 h2 htail (by omega)
      | pauseC sender =>
          have hf := step_pause_fields kc s sender
          have hres := ih (step kc s (.pauseC sender)) i h1
            (by rw [hf.1]; exact h2) htail (by rw [hf.1]; omega)
          refine ⟨hres.1, ?_, ?_⟩
          · rw [hres.2.1]; simp [get_auction, hf.2.1]
          · rw [hres.2.2]; simp [get_creator, hf.2.2.1]
      | unpauseC sender =>
          have hf := step_unpause_fields kc s sender
          have hres := ih (step kc s (.unpauseC sender)) i h1
            (by rw [hf.1]; exact h2) htail (by rw [hf.1]; omega)
          refine ⟨hres.1, ?_, ?_⟩
          · rw [hres.2.1]; simp [get_auction, hf.2.1]
          · rw [hres.2.2]; simp [get_creator, hf.2.2.1]
      | create sender p deploy =>
          rcases hc : create_auction kc deploy sender p s with e | ⟨s', a⟩
          · rw [step_create_of_error kc deploy sender p s e hc] at htail ⊢
            exact ih s i h1 h2 htail (by omega)
          · rw [step_create_of_ok kc deploy sender p s s' a hc] at htail ⊢
            have hshape := (create_auction_ok_elim kc deploy sender p s s' a hc).2.2.2.2.2.2
            have hnid : nextId s = s.auction_count + 1 := by
              rw [nextId]; exact Nat.mod_eq_of_lt (by omega)
            have hcount : s'.auction_count = s.auction_count + 1 := by
              rw [hshape]; simpa using hnid
            have hne : i ≠ nextId s := by rw [hnid]; omega
            have hga : get_auction s' i = get_auction s i := by
              rw [hshape]; simp only [get_auction]
              exact mapGet_mapSet_of_ne _ _ _ _ hne
            have hgc : get_creator s' i = get_creator s i := by
              rw [hshape]; simp only [get_creator]
              exact mapGet_mapSet_of_ne _ _ _ _ hne
            have hres := ih s' i h1 (by omega) htail (by rw [hcount]; omega)
            exact ⟨hres.1, hres.2.1.trans hga, hres.2.2.trans hgc⟩

/-- C1 (corrected): `create_auction` validates its inputs in the fixed
order paused, nft contract, reveal duration, commit duration, min
deposit; the first failing check determines the error, and a call that
fails any check commits no state change.  The source checks
revealDuration before commitDuration — the opposite of the claimed
order — so when both durations are zero the revealDuration error is
returned, not the commitDuration one. -/
theorem createAuction_validation_order (kc : List Nat → List Nat)
    (deploy : List Nat → Except (List Nat) Nat) (sender : Nat) (p : Params)
    (s : State) :
    (s.paused = true →
      create_auction kc deploy sender p s = .error (strBytes "Factory is paused")) ∧
    (s.paused = false → p.nft_contract = 0 →
      create_auction kc deploy sender p s = .error (strBytes "Invalid NFT contract")) ∧
    (s.paused = false → p.nft_contract ≠ 0 → p.reveal_duration = 0 →
      create_auction kc deploy sender p s =
        .error (strBytes "Reveal duration must be > 0")) ∧
    (s.paused = false → p.nft_contract ≠ 0 → p.reveal_duration ≠ 0 →
      p.commit_duration = 0 →
      create_auction kc deploy sender p s =
        .error (strBytes "Commit duration must be > 0")) ∧
    (s.paused = false → p.nft_contract ≠ 0 → p.reveal_duration ≠ 0 →
      p.commit_duration ≠ 0 → p.min_deposit = 0 →
      create_auction kc deploy sender p s =
        .error (strBytes "Min deposit must be > 0")) ∧
    (∀ e, create_auction kc deploy sender p s = .error e →
      step kc s (.create sender p deploy) = s) := by
  refine ⟨?_, ?_, ?_, ?_, ?_, ?_⟩
  · intro h; simp [create_auction, h]
  · intro h h0; simp [create_auction, h, h0]
  · intro h h0 h1; simp [create_auction, h, h0, h1]
  · intro h h0 h1 h2; simp [create_auction, h, h0, h1, h2]
  · intro h h0 h1 h2 h3; simp [create_auction, h, h0, h1, h2, h3]
  · intro e he; exact step_create_of_error kc deploy sender p s e he

/-- C1 counterexample: with commitDuration = 0 and revealDuration = 0
(unpaused state, nonzero nft contract and deposit) the code returns the
revealDuration error, not the commitDuration error the claim requires. -/
theorem createAuction_duration_order_cex :
    create_auction (fun _ => []) (fun _ => .ok 7) 5
        ⟨1, 0, 0, 0, 0, 1⟩ genesis =
      .error (strBytes "Reveal duration must be > 0") ∧
    strBytes "Reveal duration must be > 0" ≠
      strBytes "Commit duration must be > 0" := by
  decide

/-- C1 witness: the validation-order theorem applied at concrete
inputs — a paused factory, a zero revealDuration, and the no-mutation
conclusion on a failing call. -/
theorem createAuction_validation_order_witness :
    create_auction (fun _ => []) (fun _ => .ok 7) 5 ⟨1, 1, 1, 1, 1, 1⟩
        { genesis with paused := true } =
      .error (strBytes "Factory is paused") ∧
    create_auction (fun _ => []) (fun _ => .ok 7) 5 ⟨2, 9, 9, 7, 0, 4⟩ genesis =
      .error (strBytes "Reveal duration must be > 0") ∧
    step (fun _ => []) { genesis with paused := true }
        (.create 5 ⟨1, 1, 1, 1, 1, 1⟩ (fun _ => .ok 7)) =
      { genesis with paused := true } := by
  refine ⟨?_, ?_, ?_⟩
  · exact (createAuction_validation_order (fun _ => []) (fun _ => .ok 7) 5
      ⟨1, 1, 1, 1, 1, 1⟩ { genesis with paused := true }).1 rfl
  · exact (createAuction_validation_order (fun _ => []) (fun _ => .ok 7) 5
      ⟨2, 9, 9, 7, 0, 4⟩ genesis).2.2.1 rfl (by decide) rfl
  · exact (createAuction_validation_order (fun _ => []) (fun _ => .ok 7) 5
      ⟨1, 1, 1, 1, 1, 1⟩ { genesis with paused := true }).2.2.2.2.2 _
      ((createAuction_validation_order (fun _ => []) (fun _ => .ok 7) 5
        ⟨1, 1, 1, 1, 1, 1⟩ { genesis with paused := true }).1 rfl)

/-- C2 (corrected): when the deploy primitive fails, `create_auction`
returns an error that is the fixed ASCII text "Deployment failed: "
followed by the primitive's diagnostic payload, the payload itself
carried through unmodified as a suffix.  The claim that the error is
exactly the payload with no bytes added is wrong: the code prepends a
19-byte prefix. -/
theorem deployFailed_payload_prefixed (kc : List Nat → List Nat)
    (deploy : List Nat → Except (List Nat) Nat) (sender : Nat) (p : Params)
    (s : State) (e : List Nat)
    (hp : s.paused = false) (h1 : p.nft_contract ≠ 0) (h2 : p.reveal_duration ≠ 0)
    (h3 : p.commit_duration ≠ 0) (h4 : p.min_deposit ≠ 0)
    (hd : deploy (salt kc (nextId s) sender p) = .error e) :
    create_auction kc deploy sender p s =
      .error (strBytes "Deployment failed: " ++ e) := by
  simp [create_auction, hp, h1, h2, h3, h4, hd]

/-- C2 counterexample: with deploy payload [1, 2, 3], the returned error
is the prefixed list, which differs from the payload itself. -/
theorem deployFailed_payload_cex :
    create_auction (fun _ => []) (fun _ => .error [1, 2, 3]) 5
        ⟨1, 1, 1, 1, 1, 1⟩ genesis =
      .error (strBytes "Deployment failed: " ++ [1, 2, 3]) ∧
    strBytes "Deployment failed: " ++ [1, 2, 3] ≠ [1, 2, 3] := by
  decide

/-- C2 witness: the prefixed-payload theorem applied at a concrete
failing deploy. -/
theorem deployFailed_payload_prefixed_witness :
    create_auction (fun _ => []) (fun _ => .error [9]) 5 ⟨1, 1, 1, 1, 1, 1⟩ genesis =
      .error (strBytes "Deployment failed: " ++ [9]) :=
  deployFailed_payload_prefixed (fun _ => []) (fun _ => .error [9]) 5
    ⟨1, 1, 1, 1, 1, 1⟩ genesis [9] rfl (by decide) (by decide) (by decide)
    (by decide) rfl

/-- C3 (confirmed): if the deploy primitive fails inside
`create_auction`, the committed post-call state has the same counter,
registry entry and creator-log entry at the candidate id as before the
call: a failed deployment attempt never consumes an id. -/
theorem deployFail_no_state_change (kc : List Nat → List Nat)
    (deploy : List Nat → Except (List Nat) Nat) (sender : Nat) (p : Params)
    (s : State) (e : List Nat)
    (hd : deploy (salt kc (nextId s) sender p) = .error e) :
    get_auction_count (step kc s (.create sender p deploy)) =
      get_auction_count s ∧
    get_auction (step kc s (.create sender p deploy)) (nextId s) =
      get_auction s (nextId s) ∧
    get_creator (step kc s (.create sender p deploy)) (nextId s) =
      get_creator s (nextId s) := by
  have hstep : step kc s (.create sender p deploy) = s := by
    rcases hc : create_auction kc deploy sender p s with e' | ⟨s', a⟩
    · exact step_create_of_error kc deploy sender p s e' hc
    · have hok := (create_auction_ok_elim kc deploy sender p s s' a hc).2.2.2.2.2.1
      rw [hd] at hok; cases hok
  rw [hstep]
  exact ⟨rfl, rfl, rfl⟩

/-- C3 witness: the no-state-change theorem applied at a concrete
failing deploy from genesis. -/
theorem deployFail_no_state_change_witness :
    get_auction_count (step (fun _ => []) genesis
        (.create 5 ⟨1, 1, 1, 1, 1, 1⟩ (fun _ => .error [2]))) =
      get_auction_count genesis ∧
    get_auction (step (fun _ => []) genesis
        (.create 5 ⟨1, 1, 1, 1, 1, 1⟩ (fun _ => .error [2]))) (nextId genesis) =
      get_auction genesis (nextId genesis) ∧
    get_creator (step (fun _ => []) genesis
        (.create 5 ⟨1, 1, 1, 1, 1, 1⟩ (fun _ => .error [2]))) (nextId genesis) =
      get_creator genesis (nextId genesis) :=
  deployFail_no_state_change (fun _ => []) (fun _ => .error [2]) 5
    ⟨1, 1, 1, 1, 1, 1⟩ genesis [2] rfl

/-- C4 (corrected): the counter starts at 0 and always equals, modulo
2^256, the number of successful `create_auction` deployments since the
most recent successful `new` call (or since genesis): each successful
deployment raises it by 1, every failed call leaves it unchanged, and
the only operation that lowers it is a successful `new` — possible
whenever the stored owner is still the zero address — which resets it
to 0.  The unrestricted claim ("never decreases") is wrong. -/
theorem counter_eq_success_tally (kc : List Nat → List Nat) (cs : List Call) :
    get_auction_count (run kc cs) = specDeployTally kc cs % U256MOD := by
  have h := runFrom_count_tally kc cs genesis 0 (by simp [genesis])
  simpa [run, specDeployTally, get_auction_count] using h

/-- C4 counterexample: after one successful deployment the counter is 1,
but a following `new` call (succeeding because the owner is still the
zero address) resets it to 0 — the counter decreased and no longer
equals the total number of successful deployments. -/
theorem counter_decrease_cex :
    get_auction_count (run (fun _ => [])
        [.create 5 ⟨1, 1, 1, 1, 1, 1⟩ (fun _ => .ok 7)]) = 1 ∧
    get_auction_count (run (fun _ => [])
        [.create 5 ⟨1, 1, 1, 1, 1, 1⟩ (fun _ => .ok 7), .init 9]) = 0 := by
  decide

/-- C5 (corrected): registry and creator-log entries are set together —
a successful `create_auction` stores the deployed address and the caller
under the candidate id in the same step and sets the counter to that
id — and an assigned entry is returned unchanged by every later
`get_auction`/`get_creator` across any intervening calls that contain no
successful `new` (with fewer than 2^256 calls in total).  The
unrestricted claim is wrong: a successful `new` after a deployment
resets the counter, after which a later deployment reuses an assigned
id and overwrites both entries. -/
theorem registry_set_together_persist (kc : List Nat → List Nat)
    (cs ds : List Call) (i sender a : Nat) (p : Params)
    (hp : (run kc cs).paused = false) (h1 : p.nft_contract ≠ 0)
    (h2 : p.reveal_duration ≠ 0) (h3 : p.commit_duration ≠ 0)
    (h4 : p.min_deposit ≠ 0) (hi1 : 1 ≤ i)
    (hi2 : i ≤ get_auction_count (run kc cs))
    (hns : noSuccInit kc (run kc cs) ds = true)
    (hb : cs.length + ds.length < U256MOD) :
    (get_auction (step kc (run kc cs) (.create sender p (fun _ => .ok a)))
        (nextId (run kc cs)) = a ∧
     get_creator (step kc (run kc cs) (.create sender p (fun _ => .ok a)))
        (nextId (run kc cs)) = sender ∧
     get_auction_count (step kc (run kc cs) (.create sender p (fun _ => .ok a))) =
        nextId (run kc cs)) ∧
    get_auction (runFrom kc (run kc cs) ds) i = get_auction (run kc cs) i ∧
    get_creator (runFrom kc (run kc cs) ds) i = get_creator (run kc cs) i := by
  constructor
  · have hok := create_auction_ok_intro kc (fun _ => .ok a) sender p (run kc cs) a
      hp h1 h2 h3 h4 rfl
    rw [step_create_of_ok kc (fun _ => .ok a) sender p (run kc cs) _ a hok]
    refine ⟨?_, ?_, rfl⟩
    · simp only [get_auction]
      exact mapGet_mapSet_self _ _ _
    · simp only [get_creator]
      exact mapGet_mapSet_self _ _ _
  · have hcle := run_count_le kc cs
    have hres := persist_aux kc ds (run kc cs) i hi1 hi2 hns (by omega)
    exact ⟨hres.2.1, hres.2.2⟩

/-- C5 counterexample: the first deployment assigns id 1 (caller 5,
address 7); a successful `new` resets the counter; the next deployment
(caller 8, address 11) reuses id 1 and overwrites both entries, so a
later read of an assigned id returns different values. -/
theorem registry_overwrite_cex :
    get_auction (run (fun _ => [])
        [.create 5 ⟨1, 1, 1, 1, 1, 1⟩ (fun _ => .ok 7)]) 1 = 7 ∧
    get_creator (run (fun _ => [])
        [.create 5 ⟨1, 1, 1, 1, 1, 1⟩ (fun _ => .ok 7)]) 1 = 5 ∧
    get_auction (run (fun _ => [])
        [.create 5 ⟨1, 1, 1, 1, 1, 1⟩ (fun _ => .ok 7), .init 9,
         .create 8 ⟨1, 1, 1, 1, 1, 1⟩ (fun _ => .ok 11)]) 1 = 11 ∧
    get_creator (run (fun _ => [])
        [.create 5 ⟨1, 1, 1, 1, 1, 1⟩ (fun _ => .ok 7), .init 9,
         .create 8 ⟨1, 1, 1, 1, 1, 1⟩ (fun _ => .ok 11)]) 1 = 8 := by
  decide

/-- C5 witness: the set-together-and-persist theorem applied after one
successful deployment, with a failing `pause` call in between. -/
theorem registry_set_together_persist_witness :
    (get_auction (step (fun _ => [])
          (run (fun _ => []) [.create 5 ⟨1, 1, 1, 1, 1, 1⟩ (fun _ => .ok 7)])
          (.create 8 ⟨1, 1, 1, 1, 1, 1⟩ (fun _ => .ok 11)))
        (nextId (run (fun _ => [])
          [.create 5 ⟨1, 1, 1, 1, 1, 1⟩ (fun _ => .ok 7)])) = 11 ∧
     get_creator (step (fun _ => [])
          (run (fun _ => []) [.create 5 ⟨1, 1, 1, 1, 1, 1⟩ (fun _ => .ok 7)])
          (.create 8 ⟨1, 1, 1, 1, 1, 1⟩ (fun _ => .ok 11)))
        (nextId (run (fun _ => [])
          [.create 5 ⟨1, 1, 1, 1, 1, 1⟩ (fun _ => .ok 7)])) = 8 ∧
     get_auction_count (step (fun _ => [])
          (run (fun _ => []) [.create 5 ⟨1, 1, 1, 1, 1, 1⟩ (fun _ => .ok 7)])
          (.create 8 ⟨1, 1, 1, 1, 1, 1⟩ (fun _ => .ok 11))) =
        nextId (run (fun _ => [])
          [.create 5 ⟨1, 1, 1, 1, 1, 1⟩ (fun _ => .ok 7)])) ∧
    get_auction (runFrom (fun _ => [])
        (run (fun _ => []) [.create 5 ⟨1, 1, 1, 1, 1, 1⟩ (fun _ => .ok 7)])
        [.pauseC 9]) 1 =
      get_auction (run (fun _ => [])
        [.create 5 ⟨1, 1, 1, 1, 1, 1⟩ (fun _ => .ok 7)]) 1 ∧
    get_creator (runFrom (fun _ => [])
        (run (fun _ => []) [.create 5 ⟨1, 1, 1, 1, 1, 1⟩ (fun _ => .ok 7)])
        [.pauseC 9]) 1 =
      get_creator (run (fun _ => [])
        [.create 5 ⟨1, 1, 1, 1, 1, 1⟩ (fun _ => .ok 7)]) 1 :=
  registry_set_together_persist (fun _ => [])
    [.create 5 ⟨1, 1, 1, 1, 1, 1⟩ (fun _ => .ok 7)] [.pauseC 9] 1 8 11
    ⟨1, 1, 1, 1, 1, 1⟩ (by decide) (by decide) (by decide) (by decide)
    (by decide) (by decide) (by decide) (by decide) (by decide)

/-- C6 (confirmed): the salt is the 32-byte keccak hash of the
concatenation, in the fixed field order (candidate id, caller, nft
contract, token id, reserve price, commit duration, reveal duration,
min deposit), of each field's fixed-width byte encoding (32-byte
little-endian words and 20-byte addresses, 232 preimage bytes in all);
consequently two calls with identical tuples derive identical salts. -/
theorem salt_deterministic (kc : List Nat → List Nat) (id creator : Nat)
    (p : Params) (id' creator' : Nat) (p' : Params)
    (hid : id = id') (hcr : creator = creator') (hpp : p = p') :
    salt kc id creator p = (kc ((specPreimageFields id creator p).flatten)).take 32 ∧
    (saltPreimage id creator p).length = 232 ∧
    (∀ n, (le_bytes32 n).length = 32) ∧
    (∀ adr, (addr_bytes20 adr).length = 20) ∧
    salt kc id creator p = salt kc id' creator' p' := by
  refine ⟨?_, ?_, ?_, ?_, by rw [hid, hcr, hpp]⟩
  · rw [salt]
    have hpre : saltPreimage id creator p = (specPreimageFields id creator p).flatten := by
      simp [saltPreimage, specPreimageFields]
    rw [hpre]
  · simp [saltPreimage, le_bytes32, addr_bytes20]
  · intro n; simp [le_bytes32]
  · intro adr; simp [addr_bytes20]

/-- C6 witness: the salt theorem applied at a concrete tuple (with the
identity function standing in for the black-box hash). -/
theorem salt_deterministic_witness :
    salt (fun l => l) 1 2 ⟨3, 4, 5, 6, 7, 8⟩ =
      ((fun l => l) ((specPreimageFields 1 2 ⟨3, 4, 5, 6, 7, 8⟩).flatten)).take 32 ∧
    (saltPreimage 1 2 ⟨3, 4, 5, 6, 7, 8⟩).length = 232 ∧
    (∀ n, (le_bytes32 n).length = 32) ∧
    (∀ adr, (addr_bytes20 adr).length = 20) ∧
    salt (fun l => l) 1 2 ⟨3, 4, 5, 6, 7, 8⟩ =
      salt (fun l => l) 1 2 ⟨3, 4, 5, 6, 7, 8⟩ :=
  salt_deterministic (fun l => l) 1 2 ⟨3, 4, 5, 6, 7, 8⟩ 1 2 ⟨3, 4, 5, 6, 7, 8⟩
    rfl rfl rfl

/-- C7 (confirmed): `new` succeeds exactly when the stored owner is the
zero address, in which case it sets owner to the caller, the counter to
0 and paused to false; otherwise it fails with the AlreadyInitialized
error and the committed state is unchanged. -/
theorem new_once (kc : List Nat → List Nat) (sender : Nat) (s : State) :
    (s.owner = 0 →
      new sender s =
        .ok { s with auction_count := 0, owner := sender, paused := false }) ∧
    (s.owner ≠ 0 →
      new sender s = .error (strBytes "Already initialized") ∧
      step kc s (.init sender) = s) := by
  constructor
  · intro h; simp [new, h]
  · intro h; exact ⟨by simp [new, h], step_init_of_owner_ne kc s sender h⟩

/-- C7 witness: the initialization theorem applied at genesis and at an
already-initialized state. -/
theorem new_once_witness :
    new 5 genesis =
      .ok { genesis with auction_count := 0, owner := 5, paused := false } ∧
    new 6 { genesis with owner := 5 } = .error (strBytes "Already initialized") ∧
    step (fun _ => []) { genesis with owner := 5 } (.init 6) =
      { genesis with owner := 5 } :=
  ⟨(new_once (fun _ => []) 5 genesis).1 rfl,
   ((new_once (fun _ => []) 6 { genesis with owner := 5 }).2 (by decide)).1,
   ((new_once (fun _ => []) 6 { genesis with owner := 5 }).2 (by decide)).2⟩

/-- C8 (confirmed): `pause` and `unpause` succeed exactly when the
caller equals the stored owner, setting the flag to true respectively
false with no precondition on its current value (so pausing an
already-paused factory succeeds); any other caller gets the NotOwner
error and the committed state is unchanged. -/
theorem pause_unpause_owner_gate (kc : List Nat → List Nat) (sender : Nat)
    (s : State) :
    (sender = s.owner →
      pause sender s = .ok { s with paused := true } ∧
      unpause sender s = .ok { s with paused := false }) ∧
    (sender ≠ s.owner →
      pause sender s = .error (strBytes "Only owner") ∧
      unpause sender s = .error (strBytes "Only owner") ∧
      step kc s (.pauseC sender) = s ∧
      step kc s (.unpauseC sender) = s) := by
  constructor
  · intro h
    exact ⟨by simp [pause, only_owner, h], by simp [unpause, only_owner, h]⟩
  · intro h
    exact ⟨by simp [pause, only_owner, h], by simp [unpause, only_owner, h],
      by simp [step, pause, only_owner, h], by simp [step, unpause, only_owner, h]⟩

/-- C8 witness: the owner-gate theorem applied to an already-paused
owner-5 factory (owner succeeds in both directions) and to a non-owner
caller (fails, state unchanged). -/
theorem pause_unpause_owner_gate_witness :
    pause 5 { genesis with owner := 5, paused := true } =
      .ok { genesis with owner := 5, paused := true } ∧
    unpause 5 { genesis with owner := 5, paused := true } =
      .ok { genesis with owner := 5, paused := false } ∧
    pause 6 { genesis with owner := 5 } = .error (strBytes "Only owner") ∧
    step (fun _ => []) { genesis with owner := 5 } (.pauseC 6) =
      { genesis with owner := 5 } :=
  ⟨((pause_unpause_owner_gate (fun _ => []) 5
      { genesis with owner := 5, paused := true }).1 rfl).1,
   ((pause_unpause_owner_gate (fun _ => []) 5
      { genesis with owner := 5, paused := true }).1 rfl).2,
   ((pause_unpause_owner_gate (fun _ => []) 6
      { genesis with owner := 5 }).2 (by decide)).1,
   ((pause_unpause_owner_gate (fun _ => []) 6
      { genesis with owner := 5 }).2 (by decide)).2.2.1⟩

/-- C9 (corrected): in this model the read accessors are pure total
functions of the state; `get_auction` and `get_creator` return the
sentinel zero address for id 0 and for every id above the counter,
provided no successful `new` call has lowered the counter below a
previously assigned id (`initSafe`) and fewer than 2^256 calls ran.
The unrestricted claim is wrong: a successful `new` after a deployment
resets the counter, leaving an id above the counter with a nonzero
entry. -/
theorem reads_sentinel_for_unset (kc : List Nat → List Nat) (cs : List Call)
    (i : Nat) (hsafe : initSafe kc genesis cs = true) (hb : cs.length < U256MOD)
    (hi : i = 0 ∨ get_auction_count (run kc cs) < i) :
    get_auction (run kc cs) i = 0 ∧ get_creator (run kc cs) i = 0 := by
  have h := unassigned_zero_aux kc cs genesis
    (by intro j hj; exact ⟨rfl, rfl⟩)
    hsafe
    (by simpa [genesis] using hb)
    i (by simpa [run, get_auction_count] using hi)
  exact ⟨by simpa [run, get_auction] using h.1,
         by simpa [run, get_creator] using h.2⟩

/-- C9 counterexample: after a deployment at genesis followed by a
successful `new`, the counter is 0, yet id 1 (which exceeds the
counter) still maps to the deployed address and its creator instead of
the sentinel zero address. -/
theorem reads_sentinel_cex :
    get_auction_count (run (fun _ => [])
        [.create 5 ⟨1, 1, 1, 1, 1, 1⟩ (fun _ => .ok 7), .init 9]) = 0 ∧
    get_auction (run (fun _ => [])
        [.create 5 ⟨1, 1, 1, 1, 1, 1⟩ (fun _ => .ok 7), .init 9]) 1 = 7 ∧
    get_creator (run (fun _ => [])
        [.create 5 ⟨1, 1, 1, 1, 1, 1⟩ (fun _ => .ok 7), .init 9]) 1 = 5 := by
  decide

/-- C9 witness: the sentinel theorem applied after one deployment, at
the unset id 2. -/
theorem reads_sentinel_for_unset_witness :
    get_auction (run (fun _ => [])
        [.create 5 ⟨1, 1, 1, 1, 1, 1⟩ (fun _ => .ok 7)]) 2 = 0 ∧
    get_creator (run (fun _ => [])
        [.create 5 ⟨1, 1, 1, 1, 1, 1⟩ (fun _ => .ok 7)]) 2 = 0 :=
  reads_sentinel_for_unset (fun _ => [])
    [.create 5 ⟨1, 1, 1, 1, 1, 1⟩ (fun _ => .ok 7)] 2
    (by decide) (by decide) (by decide)

theorem deployErr_ne_admin (e0 : List Nat) :
    strBytes "Deployment failed: " ++ e0 ≠ strBytes "Only owner" ∧
    strBytes "Deployment failed: " ++ e0 ≠ strBytes "Already initialized" := by
  have hpre : (strBytes "Deployment failed: ").length = 19 := by decide
  constructor
  · intro h
    have hl := congrArg List.length h
    rw [List.length_append, hpre] at hl
    have h2 : (strBytes "Only owner").length = 10 := by decide
    rw [h2] at hl
    omega
  · intro h
    have hl := congrArg List.length h
    rw [List.length_append, hpre] at hl
    have h2 : (strBytes "Already initialized").length = 19 := by decide
    rw [h2] at hl
    have he0 : e0 = [] := List.length_eq_zero.mp (by omega)
    subst he0
    rw [List.append_nil] at h
    exact absurd h (by decide)

/-- C10 (confirmed): `create_auction` performs no owner or
initialization check: every error it can return is one of the five
validation errors or a prefixed deployment error — never the NotOwner
or AlreadyInitialized error — and at the genesis state (owner still the
zero address, never initialized) any caller with valid parameters
passes validation, reaches the deploy step, and succeeds when the
deploy primitive does. -/
theorem createAuction_no_owner_gate (kc : List Nat → List Nat)
    (deploy : List Nat → Except (List Nat) Nat) (sender a : Nat) (p : Params)
    (s : State) :
    (∀ e, create_auction kc deploy sender p s = .error e →
      (e = strBytes "Factory is paused" ∨ e = strBytes "Invalid NFT contract" ∨
       e = strBytes "Reveal duration must be > 0" ∨
       e = strBytes "Commit duration must be > 0" ∨
       e = strBytes "Min deposit must be > 0" ∨
       ∃ e0, deploy (salt kc (nextId s) sender p) = .error e0 ∧
         e = strBytes "Deployment failed: " ++ e0) ∧
      e ≠ strBytes "Only owner" ∧ e ≠ strBytes "Already initialized") ∧
    (p.nft_contract ≠ 0 → p.reveal_duration ≠ 0 → p.commit_duration ≠ 0 →
      p.min_deposit ≠ 0 →
      create_auction kc (fun _ => .ok a) sender p genesis =
        .ok ({ auction_count := 1, auctions := [(1, a)],
               creators := [(1, sender)], owner := 0, paused := false }, a)) := by
  constructor
  · intro e he
    have hshape : e = strBytes "Factory is paused" ∨ e = strBytes "Invalid NFT contract" ∨
        e = strBytes "Reveal duration must be > 0" ∨
        e = strBytes "Commit duration must be > 0" ∨
        e = strBytes "Min deposit must be > 0" ∨
        ∃ e0, deploy (salt kc (nextId s) sender p) = .error e0 ∧
          e = strBytes "Deployment failed: " ++ e0 := by
      unfold create_auction at he
      split_ifs at he with hc1 hc2 hc3 hc4 hc5
      · exact Or.inl (by injection he with h; exact h.symm)
      · exact Or.inr (Or.inl (by injection he with h; exact h.symm))
      · exact Or.inr (Or.inr (Or.inl (by injection he with h; exact h.symm)))
      · exact Or.inr (Or.inr (Or.inr (Or.inl
          (by injection he with h; exact h.symm))))
      · exact Or.inr (Or.inr (Or.inr (Or.inr (Or.inl
          (by injection he with h; exact h.symm)))))
      · rcases hd : deploy (salt kc (nextId s) sender p) with e0 | d
        · rw [hd] at he
          exact Or.inr (Or.inr (Or.inr (Or.inr (Or.inr
            ⟨e0, rfl, by injection he with h; exact h.symm⟩))))
        · rw [hd] at he; cases he
    refine ⟨hshape, ?_, ?_⟩
    · rcases hshape with h | h | h | h | h | ⟨e0, _, h⟩ <;> rw [h]
      · decide
      · decide
      · decide
      · decide
      · decide
      · exact (deployErr_ne_admin e0).1
    · rcases hshape with h | h | h | h | h | ⟨e0, _, h⟩ <;> rw [h]
      · decide
      · decide
      · decide
      · decide
      · decide
      · exact (deployErr_ne_admin e0).2
  · intro h1 h2 h3 h4
    have hnid : nextId genesis = 1 := by decide
    have hok := create_auction_ok_intro kc (fun _ => .ok a) sender p genesis a
      rfl h1 h2 h3 h4 rfl
    rw [hnid] at hok
    simpa [genesis, mapSet] using hok

/-- C10 witness: a paused-state error is not the NotOwner or
AlreadyInitialized error, and a never-initialized genesis factory
deploys successfully for caller 5. -/
theorem createAuction_no_owner_gate_witness :
    (strBytes "Factory is paused" ≠ strBytes "Only owner" ∧
     strBytes "Factory is paused" ≠ strBytes "Already initialized") ∧
    create_auction (fun _ => []) (fun _ => .ok 7) 5 ⟨1, 1, 1, 1, 1, 1⟩ genesis =
      .ok ({ auction_count := 1, auctions := [(1, 7)], creators := [(1, 5)],
             owner := 0, paused := false }, 7) := by
  constructor
  · have h := (createAuction_no_owner_gate (fun _ => []) (fun _ => .ok 7) 5 7
      ⟨1, 1, 1, 1, 1, 1⟩ { genesis with paused := true }).1
      (strBytes "Factory is paused") (by decide)
    exact ⟨h.2.1, h.2.2⟩
  · exact (createAuction_no_owner_gate (fun _ => []) (fun _ => .ok 7) 5 7
      ⟨1, 1, 1, 1, 1, 1⟩ genesis).2 (by decide) (by decide) (by decide) (by decide)
